import Mathlib

set_option maxHeartbeats 1000000

namespace SDPIP

/-! Shallow embedding of the Text Segmentation and Structuring Engine:
the chunker of OpenAIService, the PII scanner of DocumentProcessor and
the summary block formatter of ReportGenerator. -/

/-- Python whitespace characters, as recognized by str.split and str.strip. -/
def isPyWS (c : Char) : Bool :=
  c == ' ' || c == '\t' || c == '\n' || c == '\r' || c == '\x0b' || c == '\x0c'

/-- Helper emitting the pending word accumulator (reversed) as a word list. -/
def flushWord (acc : List Char) : List String :=
  if acc = [] then [] else [String.mk acc.reverse]

/-- Loop of Python str.split with no separator argument. -/
def wordsAux : List Char → List Char → List String
  | [], acc => flushWord acc
  | c :: cs, acc =>
    if isPyWS c then flushWord acc ++ wordsAux cs []
    else wordsAux cs (c :: acc)

/-- Python text.split(): whitespace-separated words, empties dropped. -/
def pyWords (t : String) : List String := wordsAux t.data []

/-- Python single-space join of a list of strings. -/
def sjoin : List String → String
  | [] => ""
  | [w] => w
  | w :: ws => w ++ " " ++ sjoin ws

/-- Estimated token count of one word in OpenAIService chunking:
len(word) // 4 + 1. -/
def word_size (w : String) : Nat := w.length / 4 + 1

/-- The word loop of OpenAIService chunk text, carrying the in-progress
chunk and its running estimated size. -/
def chunk_aux (B : Int) : List String → List String → Nat → List String
  | [], curr, _ => if curr = [] then [] else [sjoin curr]
  | w :: ws, curr, size =>
    if ((size + word_size w : Nat) : Int) > B then
      sjoin curr :: chunk_aux B ws [w] (word_size w)
    else
      chunk_aux B ws (curr ++ [w]) (size + word_size w)

/-- OpenAIService chunk text: split into words, pack greedily under the
estimated-size budget. -/
def chunk_text (t : String) (B : Int) : List String := chunk_aux B (pyWords t) [] 0

example : chunk_text "abcd" 1 = ["", "abcd"] := by decide
example : chunk_text "hello world" 10 = ["hello world"] := by decide
example : chunk_text "a bb ccc" 2 = ["a bb", "ccc"] := by decide
example : chunk_text "hi" 0 = ["", "hi"] := by decide
example : pyWords "  a  bb " = ["a", "bb"] := by decide

lemma str_append_assoc (a b c : String) : a ++ b ++ c = a ++ (b ++ c) :=
  String.ext (by simp [String.data_append])

lemma sjoin_cons_cons (a b : String) (l : List String) :
    sjoin (a :: b :: l) = a ++ " " ++ sjoin (b :: l) := rfl

lemma sjoin_singleton (w : String) : sjoin [w] = w := rfl

lemma sjoin_append : ∀ (a b : List String), a ≠ [] → b ≠ [] →
    sjoin (a ++ b) = sjoin a ++ " " ++ sjoin b
  | [], _, ha, _ => absurd rfl ha
  | [x], b, _, hb => by
    cases b with
    | nil => exact absurd rfl hb
    | cons y ys => simp [sjoin_cons_cons, sjoin]
  | x :: x2 :: xs, b, _, hb => by
    have ih := sjoin_append (x2 :: xs) b (by simp) hb
    simp only [List.cons_append, sjoin_cons_cons]
    rw [show (x2 :: xs) ++ b = x2 :: (xs ++ b) from rfl] at ih
    rw [ih]
    simp only [str_append_assoc]

lemma chunk_aux_ne_nil (B : Int) : ∀ (ws curr : List String) (size : Nat),
    curr ≠ [] → chunk_aux B ws curr size ≠ []
  | [], curr, size, h => by simp [chunk_aux, h]
  | w :: ws, curr, size, h => by
    simp only [chunk_aux]
    split
    · simp
    · exact chunk_aux_ne_nil B ws (curr ++ [w]) _ (by simp)

lemma chunk_aux_join (B : Int) : ∀ (ws curr : List String) (size : Nat),
    curr ≠ [] → sjoin (chunk_aux B ws curr size) = sjoin (curr ++ ws)
  | [], curr, size, h => by simp [chunk_aux, h, sjoin_singleton]
  | w :: ws, curr, size, h => by
    simp only [chunk_aux]
    split
    · have hne := chunk_aux_ne_nil B ws [w] (word_size w) (by simp)
      have ih := chunk_aux_join B ws [w] (word_size w) (by simp)
      rcases hrest : chunk_aux B ws [w] (word_size w) with _ | ⟨r, rs⟩
      · exact absurd hrest hne
      · rw [hrest] at ih
        rw [sjoin_cons_cons, ih]
        rw [sjoin_append curr (w :: ws) h (by simp)]
        rfl
    · have ih := chunk_aux_join B ws (curr ++ [w]) (size + word_size w) (by simp)
      rw [ih, List.append_assoc]
      rfl

/-- A word as produced by Python str.split: nonempty and whitespace free. -/
def goodWord (w : String) : Prop := w ≠ "" ∧ ∀ c ∈ w.data, isPyWS c = false

lemma strMkData (s : String) : String.mk s.data = s := rfl

lemma flushWord_good (acc : List Char) (hacc : ∀ c ∈ acc, isPyWS c = false) :
    ∀ w ∈ flushWord acc, goodWord w := by
  intro w hw
  unfold flushWord at hw
  split at hw
  · simp at hw
  · next h =>
    simp only [List.mem_singleton] at hw
    subst hw
    refine ⟨?_, ?_⟩
    · intro he
      apply h
      have hdata := congrArg String.data he
      simpa using hdata
    · intro c hc
      exact hacc c (by simpa using hc)

lemma wordsAux_good : ∀ (l acc : List Char), (∀ c ∈ acc, isPyWS c = false) →
    ∀ w ∈ wordsAux l acc, goodWord w
  | [], acc, hacc => flushWord_good acc hacc
  | c :: cs, acc, hacc => by
    intro w hw
    simp only [wordsAux] at hw
    split at hw
    · rcases List.mem_append.mp hw with h1 | h2
      · exact flushWord_good acc hacc w h1
      · exact wordsAux_good cs [] (by simp) w h2
    · next hc =>
      refine wordsAux_good cs (c :: acc) ?_ w hw
      intro d hd
      rcases List.mem_cons.mp hd with rfl | hd2
      · simpa using hc
      · exact hacc d hd2

lemma pyWords_good (t : String) : ∀ w ∈ pyWords t, goodWord w :=
  wordsAux_good t.data [] (by simp)

lemma wordsAux_append : ∀ (l cs acc : List Char), (∀ c ∈ l, isPyWS c = false) →
    wordsAux (l ++ cs) acc = wordsAux cs (l.reverse ++ acc)
  | [], cs, acc, _ => by simp
  | c :: l, cs, acc, h => by
    have hc : isPyWS c = false := h c (by simp)
    simp only [List.cons_append, wordsAux, hc, Bool.false_eq_true, if_false]
    rw [show l.append cs = l ++ cs from rfl,
        wordsAux_append l cs (c :: acc) (fun d hd => h d (by simp [hd]))]
    simp [List.append_assoc]

lemma pyWords_single (w : String) (hw : goodWord w) : pyWords w = [w] := by
  obtain ⟨hne, hchars⟩ := hw
  have hd : w.data ≠ [] := by
    intro h
    apply hne
    have := congrArg String.mk h
    simpa [strMkData] using this
  unfold pyWords
  rw [show w.data = w.data ++ [] from (List.append_nil _).symm,
      wordsAux_append w.data [] [] hchars]
  simp only [wordsAux, flushWord, List.append_nil]
  rw [if_neg (by simpa using hd)]
  simp [strMkData]

lemma pyWords_sjoin : ∀ (g : List String), (∀ w ∈ g, goodWord w) →
    pyWords (sjoin g) = g
  | [], _ => by decide
  | [w], h => pyWords_single w (h w (by simp))
  | w :: w2 :: ws, h => by
    obtain ⟨hne, hchars⟩ := h w (by simp)
    have hrest : ∀ x ∈ w2 :: ws, goodWord x := fun x hx => h x (by simp [hx])
    have ih := pyWords_sjoin (w2 :: ws) hrest
    have hd : w.data ≠ [] := by
      intro hh
      apply hne
      have := congrArg String.mk hh
      simpa [strMkData] using this
    rw [sjoin_cons_cons]
    unfold pyWords
    rw [show (w ++ " " ++ sjoin (w2 :: ws)).data
          = w.data ++ (' ' :: (sjoin (w2 :: ws)).data) from by
        simp [String.data_append]]
    rw [wordsAux_append w.data (' ' :: (sjoin (w2 :: ws)).data) [] hchars]
    simp only [wordsAux, show isPyWS ' ' = true from rfl, if_true, List.append_nil]
    rw [show flushWord w.data.reverse = [w] from by
      unfold flushWord
      rw [if_neg (by simpa using hd)]
      simp [strMkData]]
    unfold pyWords at ih
    rw [ih]
    rfl

/-- Estimated size of a word group: the sum of the word sizes. -/
def est_list (g : List String) : Nat := (g.map word_size).sum

/-- Estimated size of a produced chunk: the sum over its words. -/
def est_chunk (c : String) : Nat := est_list (pyWords c)

lemma est_list_nil : est_list [] = 0 := rfl

lemma est_list_singleton (w : String) : est_list [w] = word_size w := by
  simp [est_list]

lemma est_list_append_one (g : List String) (w : String) :
    est_list (g ++ [w]) = est_list g + word_size w := by
  simp [est_list]

lemma chunk_aux_sizes (B : Int) : ∀ (ws curr : List String) (size : Nat),
    (∀ w ∈ ws, goodWord w) → (∀ w ∈ curr, goodWord w) →
    size = est_list curr →
    ((size : Int) ≤ B ∨ ∃ w, curr = [w] ∧ (word_size w : Int) > B) →
    ∀ c ∈ chunk_aux B ws curr size,
      ((est_chunk c : Int) ≤ B ∨ ∃ w, pyWords c = [w] ∧ (word_size w : Int) > B)
  | [], curr, size, _, hcurr, hsz, hinv => by
    intro c hc
    simp only [chunk_aux] at hc
    split at hc
    · simp at hc
    · simp only [List.mem_singleton] at hc
      subst hc
      rcases hinv with hle | ⟨w, hw, hbig⟩
      · left
        rw [est_chunk, pyWords_sjoin curr hcurr, ← hsz]
        exact hle
      · right
        exact ⟨w, by rw [pyWords_sjoin curr hcurr, hw], hbig⟩
  | w :: ws, curr, size, hws, hcurr, hsz, hinv => by
    intro c hc
    simp only [chunk_aux] at hc
    split at hc
    · rcases List.mem_cons.mp hc with rfl | hc2
      · rcases hinv with hle | ⟨v, hv, hbig⟩
        · left
          rw [est_chunk, pyWords_sjoin curr hcurr, ← hsz]
          exact hle
        · right
          exact ⟨v, by rw [pyWords_sjoin curr hcurr, hv], hbig⟩
      · refine chunk_aux_sizes B ws [w] (word_size w)
          (fun x hx => hws x (by simp [hx]))
          (fun x hx => by
            rcases List.mem_singleton.mp hx with rfl
            exact hws x (by simp))
          (by simp [est_list_singleton]) ?_ c hc2
        by_cases hbig : (word_size w : Int) ≤ B
        · exact Or.inl (by simpa using hbig)
        · exact Or.inr ⟨w, rfl, by omega⟩
    · next hcond =>
      refine chunk_aux_sizes B ws (curr ++ [w]) (size + word_size w)
        (fun x hx => hws x (by simp [hx]))
        (fun x hx => by
          rcases List.mem_append.mp hx with hx1 | hx2
          · exact hcurr x hx1
          · rcases List.mem_singleton.mp hx2 with rfl
            exact hws x (by simp))
        (by rw [est_list_append_one, hsz]) (Or.inl (by push_cast; omega)) c hc

lemma chunk_aux_words (B : Int) : ∀ (ws curr : List String) (size : Nat),
    (∀ w ∈ ws, goodWord w) → (∀ w ∈ curr, goodWord w) →
    ((chunk_aux B ws curr size).map pyWords).flatten = curr ++ ws
  | [], curr, size, _, hcurr => by
    simp only [chunk_aux]
    split
    · next h => simp [h]
    · simp [pyWords_sjoin curr hcurr]
  | w :: ws, curr, size, hws, hcurr => by
    simp only [chunk_aux]
    split
    · have ih := chunk_aux_words B ws [w] (word_size w)
        (fun x hx => hws x (by simp [hx]))
        (fun x hx => by
          rcases List.mem_singleton.mp hx with rfl
          exact hws x (by simp))
      simp only [List.map_cons, List.flatten_cons, ih, pyWords_sjoin curr hcurr]
      rfl
    · have ih := chunk_aux_words B ws (curr ++ [w]) (size + word_size w)
        (fun x hx => hws x (by simp [hx]))
        (fun x hx => by
          rcases List.mem_append.mp hx with hx1 | hx2
          · exact hcurr x hx1
          · rcases List.mem_singleton.mp hx2 with rfl
            exact hws x (by simp))
      rw [ih, List.append_assoc]
      rfl

/-- C2 counterexample: with budget 1, the single word abcd has estimated
size 2, so the code first emits an empty chunk; the single-space join of
the chunks then carries a leading space and differs from the
whitespace-normalized input. -/
theorem c2_counterexample :
    sjoin (chunk_text "abcd" 1) ≠ sjoin (pyWords "abcd") := by decide

/-- C2 (amended): for every text T and budget B such that the estimated
size of the first word of T is at most B, joining the chunks with single
spaces equals the whitespace-normalized form of T. -/
theorem c2_theorem (t : String) (B : Int)
    (hw : (word_size ((pyWords t).headD "") : Int) ≤ B) :
    sjoin (chunk_text t B) = sjoin (pyWords t) := by
  unfold chunk_text
  rcases hpw : pyWords t with _ | ⟨w, ws⟩
  · rfl
  · rw [hpw] at hw
    simp only [List.headD_cons] at hw
    simp only [chunk_aux]
    rw [if_neg (by push_cast; omega)]
    have := chunk_aux_join B ws ([] ++ [w]) (0 + word_size w) (by simp)
    simpa using this

theorem c2_witness :
    ((word_size ((pyWords "hello world").headD "") : Int) ≤ 10) ∧
    sjoin (chunk_text "hello world" 10) = sjoin (pyWords "hello world") :=
  ⟨by decide, c2_theorem "hello world" 10 (by decide)⟩

/-- C3: for budget B greater than 0, every chunk has estimated size at most
B except possibly a chunk that is exactly one oversized word, and the words
of the chunks, flattened in order, are exactly the words of the input, so
no word is split, truncated, dropped or reordered. -/
theorem c3_theorem (t : String) (B : Int) (hB : 0 < B) :
    (∀ c ∈ chunk_text t B,
      (est_chunk c : Int) ≤ B ∨ ∃ w, pyWords c = [w] ∧ (word_size w : Int) > B) ∧
    ((chunk_text t B).map pyWords).flatten = pyWords t := by
  constructor
  · exact chunk_aux_sizes B (pyWords t) [] 0 (pyWords_good t) (by simp)
      (by simp [est_list_nil]) (Or.inl (by omega))
  · simpa using chunk_aux_words B (pyWords t) [] 0 (pyWords_good t) (by simp)

theorem c3_witness :
    ((0 : Int) < 2) ∧
    ((∀ c ∈ chunk_text "a bb ccc" 2,
      (est_chunk c : Int) ≤ 2 ∨ ∃ w, pyWords c = [w] ∧ (word_size w : Int) > 2) ∧
    ((chunk_text "a bb ccc" 2).map pyWords).flatten = pyWords "a bb ccc") :=
  ⟨by decide, c3_theorem "a bb ccc" 2 (by decide)⟩

/-- C4: the code does not validate the budget; with a zero or negative
budget it silently returns a chunk list (a leading empty chunk, then one
chunk per word) instead of failing fast with an invalid-argument error. -/
theorem c4_code_behavior :
    chunk_text "hi" 0 = ["", "hi"] ∧ chunk_text "hi" (-5) = ["", "hi"] :=
  ⟨by decide, by decide⟩

/-- C9: if the first word of the text has estimated size strictly greater
than the budget, the first chunk returned is the empty string. -/
theorem c9_theorem (t : String) (B : Int) (w : String)
    (hw : (pyWords t).head? = some w) (hB : (word_size w : Int) > B) :
    (chunk_text t B).head? = some "" := by
  unfold chunk_text
  rcases hpw : pyWords t with _ | ⟨v, ws⟩
  · rw [hpw] at hw
    simp at hw
  · rw [hpw] at hw
    simp only [List.head?_cons, Option.some.injEq] at hw
    subst hw
    simp only [chunk_aux]
    rw [if_pos (by push_cast; omega)]
    rfl

theorem c9_witness :
    (pyWords "abcdefgh").head? = some "abcdefgh" ∧
    ((word_size "abcdefgh" : Int) > 1) ∧
    (chunk_text "abcdefgh" 1).head? = some "" :=
  ⟨by decide, by decide, c9_theorem "abcdefgh" 1 "abcdefgh" (by decide) (by decide)⟩

/-! PII scanner of DocumentProcessor: a backtracking matcher with Python
re semantics for the four fixed patterns, and finditer-style scanning. -/

/-- Word character for the regex word boundary: letters, digits, underscore. -/
def isWordChar (c : Char) : Bool := c.isAlpha || c.isDigit || c == '_'

/-- A regex word boundary between the previous character and the rest. -/
def isBoundary (prev : Option Char) (s : List Char) : Bool :=
  (match prev with | none => false | some c => isWordChar c)
    != (match s with | [] => false | c :: _ => isWordChar c)

/-- Regular expression forms needed by the four PII patterns; repetition
only ever ranges over a character class, as in the source patterns. -/
inductive Re where
  | eps
  | chr (c : Char)
  | cls (p : Char → Bool)
  | seq (a b : Re)
  | opt (a : Re)
  | star (p : Char → Bool)
  | wordB

/-- Match result: the final previous character and the remaining input. -/
abbrev MRes := Option (Option Char × List Char)

/-- Matcher continuation. -/
abbrev MCont := Option Char → List Char → MRes

/-- Greedy zero-or-more repetition of a character class, with
backtracking: longest first, as in Python re. -/
def starMatch (p : Char → Bool) : Option Char → List Char → MCont → MRes
  | prev, [], k => k prev []
  | prev, c :: cs, k =>
    if p c then
      match starMatch p (some c) cs k with
      | some r => some r
      | none => k prev (c :: cs)
    else k prev (c :: cs)

/-- Backtracking matcher in continuation style; alternatives are tried in
Python re order: greedy option first, longest star first. -/
def mtch : Re → Option Char → List Char → MCont → MRes
  | Re.eps, prev, s, k => k prev s
  | Re.chr c, _, s, k =>
    match s with
    | [] => none
    | c2 :: cs => if c2 = c then k (some c2) cs else none
  | Re.cls p, _, s, k =>
    match s with
    | [] => none
    | c :: cs => if p c then k (some c) cs else none
  | Re.seq a b, prev, s, k => mtch a prev s (fun p2 s2 => mtch b p2 s2 k)
  | Re.opt a, prev, s, k =>
    match mtch a prev s k with
    | some r => some r
    | none => k prev s
  | Re.star p, prev, s, k => starMatch p prev s k
  | Re.wordB, prev, s, k => if isBoundary prev s then k prev s else none

/-- One anchored match attempt at the current position. -/
def tryMatch (r : Re) (prev : Option Char) (s : List Char) : MRes :=
  mtch r prev s (fun p2 s2 => some (p2, s2))

/-- The scanning loop of re.finditer: leftmost matches, non-overlapping,
advancing one character after a failed or empty attempt. -/
def findAllAux (r : Re) : Nat → Option Char → List Char → List String
  | 0, _, _ => []
  | fuel+1, prev, s =>
    match tryMatch r prev s with
    | some (p2, s2) =>
      let n := s.length - s2.length
      if n = 0 then
        match s with
        | [] => []
        | c :: cs => findAllAux r fuel (some c) cs
      else String.mk (s.take n) :: findAllAux r fuel p2 s2
    | none =>
      match s with
      | [] => []
      | c :: cs => findAllAux r fuel (some c) cs

/-- Matched substrings of re.finditer over a string, in order. -/
def findAll (r : Re) (t : String) : List String :=
  findAllAux r (t.data.length + 1) none t.data

/-- Local part class of the email pattern. -/
def emailLocalC (c : Char) : Bool :=
  c.isAlpha || c.isDigit || c == '.' || c == '_' || c == '%' || c == '+' || c == '-'

/-- Domain class of the email pattern. -/
def emailDomainC (c : Char) : Bool := c.isAlpha || c.isDigit || c == '.' || c == '-'

/-- The class written between brackets as A-Z, bar, a-z in the source
email pattern: an ASCII letter or a literal bar character. -/
def emailTldC (c : Char) : Bool := c.isAlpha || c == '|'

def digitC (c : Char) : Bool := c.isDigit

/-- Separator class of the phone pattern: whitespace, dot or hyphen. -/
def phoneSepC (c : Char) : Bool := isPyWS c || c == '.' || c == '-'

/-- Separator class of the credit card pattern: hyphen or space. -/
def cardSepC (c : Char) : Bool := c == '-' || c == ' '

/-- Sequencing of a list of regex parts. -/
def seqs : List Re → Re
  | [] => Re.eps
  | [r] => r
  | r :: rs => Re.seq r (seqs rs)

/-- Exactly n repetitions of a class. -/
def repN (p : Char → Bool) : Nat → Re
  | 0 => Re.eps
  | n+1 => Re.seq (Re.cls p) (repN p n)

/-- One or more repetitions of a class. -/
def plusC (p : Char → Bool) : Re := Re.seq (Re.cls p) (Re.star p)

/-- The email pattern of DocumentProcessor. -/
def email_re : Re :=
  seqs [Re.wordB, plusC emailLocalC, Re.chr '@', plusC emailDomainC,
        Re.chr '.', Re.cls emailTldC, Re.cls emailTldC, Re.star emailTldC,
        Re.wordB]

/-- The phone pattern of DocumentProcessor. -/
def phone_re : Re :=
  seqs [Re.wordB,
        Re.opt (seqs [Re.chr '+', Re.cls digitC, Re.opt (Re.cls digitC),
                      Re.opt (Re.cls isPyWS)]),
        Re.opt (Re.chr '('), repN digitC 3, Re.opt (Re.chr ')'),
        Re.opt (Re.cls phoneSepC), repN digitC 3, Re.opt (Re.cls phoneSepC),
        repN digitC 4, Re.wordB]

/-- The social security number pattern of DocumentProcessor. -/
def ssn_re : Re :=
  seqs [Re.wordB, repN digitC 3, Re.chr '-', repN digitC 2, Re.chr '-',
        repN digitC 4, Re.wordB]

/-- The credit card pattern of DocumentProcessor. -/
def credit_card_re : Re :=
  seqs [Re.wordB, repN digitC 4, Re.opt (Re.cls cardSepC), repN digitC 4,
        Re.opt (Re.cls cardSepC), repN digitC 4, Re.opt (Re.cls cardSepC),
        repN digitC 4, Re.wordB]

/-- DocumentProcessor extract pii: apply the four patterns in dictionary
insertion order and collect matched substrings per pattern name. -/
def extract_pii (t : String) : List (String × List String) :=
  [("email", findAll email_re t),
   ("phone", findAll phone_re t),
   ("ssn", findAll ssn_re t),
   ("credit_card", findAll credit_card_re t)]

example : findAll email_re "a@b.com x" = ["a@b.com"] := by decide
example : findAll ssn_re "123-45-6789" = ["123-45-6789"] := by decide
example : findAll phone_re "555-123-4567" = ["555-123-4567"] := by decide
example : findAll credit_card_re "4111 1111 1111 1111" = ["4111 1111 1111 1111"] := by decide

example : findAll phone_re "+1 (555) 123.4567 end" = ["555) 123.4567"] := by decide
example : findAll phone_re "x5551234567y" = [] := by decide
example : findAll phone_re "5551234567" = ["5551234567"] := by decide
example : findAll email_re "a.b@c-d.org.uk more" = ["a.b@c-d.org.uk"] := by decide
example : findAll email_re "..a@b..cc.." = ["a@b..cc"] := by decide
example : findAll credit_card_re "4111-1111-1111-1111 and 1234567890123456"
    = ["4111-1111-1111-1111", "1234567890123456"] := by decide
example : findAll phone_re "(555)123-4567" = ["555)123-4567"] := by decide
example : findAll phone_re "+12 555 123 4567" = ["555 123 4567"] := by decide
example : findAll email_re "a@b.c" = [] := by decide
example : findAll email_re "a@b.cc" = ["a@b.cc"] := by decide
example : findAll email_re "_u@dom.io_" = [] := by decide
example : findAll credit_card_re "1111 2222 3333 4444 5555" = ["1111 2222 3333 4444"] := by decide
example : findAll ssn_re "123-45-678 123-456-7890" = [] := by decide
example : findAll phone_re "123-45-678 123-456-7890" = ["123-456-7890"] := by decide
example : findAll email_re "e%x+y-.z@q.t-.zz" = ["e%x+y-.z@q.t-.zz"] := by decide
example : findAll phone_re "phone: 555 123 4567." = ["555 123 4567"] := by decide

/-- C5: scanning the given contact string yields exactly one matched
substring in each of the four categories email, phone, ssn and credit
card; the phone pattern does not also fire inside the SSN digits or the
card digits. -/
theorem c5_theorem :
    extract_pii "Contact: a@b.com or 555-123-4567, SSN 123-45-6789, card 4111 1111 1111 1111"
      = [("email", ["a@b.com"]),
         ("phone", ["555-123-4567"]),
         ("ssn", ["123-45-6789"]),
         ("credit_card", ["4111 1111 1111 1111"])] := by decide

/-- C6: for every input text the scanner returns exactly the four keys
email, phone, ssn and credit card, in that order, so absence of matches is
an empty list under a present key; on the empty string every key maps to
the empty list, and the scan is a total function that raises nothing. -/
theorem c6_theorem :
    (∀ t : String,
      (extract_pii t).map Prod.fst = ["email", "phone", "ssn", "credit_card"]) ∧
    extract_pii "" = [("email", []), ("phone", []), ("ssn", []), ("credit_card", [])] :=
  ⟨fun _ => rfl, by decide⟩

/-- The part of a string after its final dot. -/
def tldOf (s : String) : String :=
  String.mk ((s.data.reverse.takeWhile (fun c => c != '.')).reverse)

/-- C7: the email pattern accepts a top-level label containing the bar
character, because the source class written A-Z, bar, a-z literally
contains the bar; the scanner reports a match whose label after the final
dot is not made of letters only. -/
theorem c7_code_behavior :
    findAll email_re "a@b.a|b" = ["a@b.a|b"] ∧
    tldOf "a@b.a|b" = "a|b" ∧ Char.isAlpha '|' = false :=
  ⟨by decide, by decide, by decide⟩

/-! Summary block formatter of ReportGenerator, and the spec-level Block
view of its output. -/

/-- Python str.strip: remove leading and trailing whitespace. -/
def pstrip (s : String) : String :=
  String.mk (((s.data.dropWhile isPyWS).reverse.dropWhile isPyWS).reverse)

/-- Python text.split on a newline separator: lines, empties kept. -/
def splitNl : List Char → List Char → List String
  | [], acc => [String.mk acc.reverse]
  | c :: cs, acc =>
    if c = '\n' then String.mk acc.reverse :: splitNl cs []
    else splitNl cs (c :: acc)

def splitLines (t : String) : List String := splitNl t.data []

/-- Python line.startswith with the bullet character. -/
def bstart (s : String) : Bool :=
  match s.data with
  | c :: _ => c == '•'
  | [] => false

/-- Python re.match of one or more digits then a literal dot, anchored at
the start of the line. -/
def isNumbered (s : String) : Bool :=
  let ds := s.data.takeWhile Char.isDigit
  !ds.isEmpty && ((s.data.drop ds.length).head? == some '.')

/-- Paragraph styles used by the summary formatter. -/
inductive Style where
  | normalText
  | subsectionTitle
  | listItem
deriving DecidableEq

/-- One flowable appended by the formatter: a styled paragraph, or a
spacer with its two size arguments. -/
inductive Flow where
  | para (text : String) (style : Style)
  | spacer (w h : Nat)
deriving DecidableEq

/-- Flush of the pending paragraph text, joined with single spaces. -/
def flushPara (curr : List String) : List Flow :=
  if curr = [] then [] else [Flow.para (sjoin curr) Style.normalText]

/-- The heading test of the formatter: a following line exists and is
blank, and the current line is neither a bullet nor a numbered item. -/
def headingCond (line : String) (rest : List String) : Bool :=
  (match rest with | next :: _ => pstrip next == "" | [] => false)
    && !(bstart line) && !(isNumbered line)

/-- Greedy collection of consecutive bullet lines; each item is the
stripped line with its first two characters removed, trimmed again. -/
def takeBullets : List String → List String × List String
  | [] => ([], [])
  | l :: rest =>
    if bstart (pstrip l) then
      (pstrip (String.mk ((pstrip l).data.drop 2)) :: (takeBullets rest).1,
       (takeBullets rest).2)
    else ([], l :: rest)

/-- Greedy collection of consecutive numbered lines, kept stripped. -/
def takeNumbered : List String → List String × List String
  | [] => ([], [])
  | l :: rest =>
    if isNumbered (pstrip l) then
      (pstrip l :: (takeNumbered rest).1, (takeNumbered rest).2)
    else ([], l :: rest)

/-- The line loop of ReportGenerator format summary. -/
def fsAux : Nat → List String → List String → List Flow
  | 0, _, curr => flushPara curr
  | _+1, [], curr => flushPara curr
  | fuel+1, l :: rest, curr =>
    let line := pstrip l
    if line = "" then
      flushPara curr ++ fsAux fuel rest []
    else if headingCond line rest then
      flushPara curr ++ [Flow.para line Style.subsectionTitle, Flow.spacer 1 10]
        ++ fsAux fuel rest.tail []
    else if bstart line then
      let pr := takeBullets (l :: rest)
      flushPara curr
        ++ pr.1.map (fun p => Flow.para ("• " ++ p) Style.listItem)
        ++ [Flow.spacer 1 6] ++ fsAux fuel pr.2 []
    else if isNumbered line then
      let pr := takeNumbered (l :: rest)
      flushPara curr ++ pr.1.map (fun p => Flow.para p Style.listItem)
        ++ [Flow.spacer 1 6] ++ fsAux fuel pr.2 []
    else
      fsAux fuel rest (curr ++ [line])

/-- ReportGenerator format summary applied to the lines of the text. -/
def format_summary (t : String) : List Flow :=
  fsAux ((splitLines t).length + 1) (splitLines t) []

/-- Spec-level block type, from the data model section of the spec. -/
inductive Block where
  | heading (text : String)
  | paragraph (text : String)
  | bulletList (items : List String)
  | numberedList (items : List String)
  | spacer
deriving DecidableEq

/-- Collect the texts of consecutive list-item paragraphs. -/
def takeItems : List Flow → List String × List Flow
  | Flow.para t Style.listItem :: rest =>
    (t :: (takeItems rest).1, (takeItems rest).2)
  | fs => ([], fs)

/-- Spec-side view of the flowables, following the Block data model of
the spec: the subsection style becomes Heading, the normal style becomes
Paragraph, a run of consecutive list items becomes one BulletList (with
the bullet marker and its following space removed from each item) when it
carries the bullet marker and one NumberedList otherwise, and spacers
stay spacers. -/
def toBlocksAux : Nat → List Flow → List Block
  | 0, _ => []
  | _+1, [] => []
  | fuel+1, Flow.para t Style.subsectionTitle :: rest =>
    Block.heading t :: toBlocksAux fuel rest
  | fuel+1, Flow.para t Style.normalText :: rest =>
    Block.paragraph t :: toBlocksAux fuel rest
  | fuel+1, Flow.spacer _ _ :: rest => Block.spacer :: toBlocksAux fuel rest
  | fuel+1, Flow.para t Style.listItem :: rest =>
    let pr := takeItems rest
    (if bstart t then
      Block.bulletList ((t :: pr.1).map fun x => String.mk (x.data.drop 2))
     else Block.numberedList (t :: pr.1)) :: toBlocksAux fuel pr.2

def toBlocks (fs : List Flow) : List Block := toBlocksAux (fs.length + 1) fs

/-- The block parser of the spec: format the summary and read the
flowables as typed blocks. -/
def parseBlocks (t : String) : List Block := toBlocks (format_summary t)

example : format_summary "" = [] := by decide
example : format_summary "p1\np2\n\np3"
    = [Flow.para "p1" Style.normalText, Flow.para "p2" Style.subsectionTitle,
       Flow.spacer 1 10, Flow.para "p3" Style.normalText] := by decide
example : format_summary "•only\n\nnext"
    = [Flow.para "• nly" Style.listItem, Flow.spacer 1 6,
       Flow.para "next" Style.normalText] := by decide
example : format_summary "3.14 pie\n\nx"
    = [Flow.para "3.14 pie" Style.listItem, Flow.spacer 1 6,
       Flow.para "x" Style.normalText] := by decide
example : format_summary "a\n• b\nc"
    = [Flow.para "a" Style.normalText, Flow.para "• b" Style.listItem,
       Flow.spacer 1 6, Flow.para "c" Style.normalText] := by decide
example : format_summary "• a\n1. b\n• c"
    = [Flow.para "• a" Style.listItem, Flow.spacer 1 6,
       Flow.para "1. b" Style.listItem, Flow.spacer 1 6,
       Flow.para "• c" Style.listItem, Flow.spacer 1 6] := by decide
example : format_summary "  indented  \nnext"
    = [Flow.para "indented next" Style.normalText] := by decide
example : format_summary "1.\n2."
    = [Flow.para "1." Style.listItem, Flow.para "2." Style.listItem,
       Flow.spacer 1 6] := by decide
example : format_summary "head\n\n\ntail"
    = [Flow.para "head" Style.subsectionTitle, Flow.spacer 1 10,
       Flow.para "tail" Style.normalText] := by decide
example : format_summary "\n\nx" = [Flow.para "x" Style.normalText] := by decide
example : format_summary "end\n"
    = [Flow.para "end" Style.subsectionTitle, Flow.spacer 1 10] := by decide
example : format_summary "• x\n\n• y"
    = [Flow.para "• x" Style.listItem, Flow.spacer 1 6,
       Flow.para "• y" Style.listItem, Flow.spacer 1 6] := by decide

example : parseBlocks "" = [] := by decide
example : parseBlocks "Hello" = [Block.paragraph "Hello"] := by decide
example : parseBlocks "a\nb" = [Block.paragraph "a b"] := by decide
example : parseBlocks "T\n\nbody" = [Block.heading "T", Block.spacer, Block.paragraph "body"] := by decide
example : parseBlocks "•x" = [Block.bulletList [""], Block.spacer] := by decide
example : parseBlocks "• first\n• second"
    = [Block.bulletList ["first", "second"], Block.spacer] := by decide
example : parseBlocks "1. one\n2. two"
    = [Block.numberedList ["1. one", "2. two"], Block.spacer] := by decide
/-- C1 counterexample: on the given input the block parser does not
return the claimed sequence, because the line This is a test. is followed
by a blank line and is therefore classified as a heading, not a
paragraph. -/
theorem c1_counterexample :
    parseBlocks "Overview\n\nThis is a test.\n\n• first\n• second\n\n1. one\n2. two"
      ≠ [Block.heading "Overview", Block.spacer,
         Block.paragraph "This is a test.",
         Block.bulletList ["first", "second"], Block.spacer,
         Block.numberedList ["1. one", "2. two"], Block.spacer] := by decide

/-- C1 (amended): the block parser returns Heading Overview, Spacer,
Heading This is a test., Spacer, BulletList of first and second, Spacer,
NumberedList of 1. one and 2. two, Spacer, in that order; the second
non-blank line is also a heading since it is followed by a blank line. -/
theorem c1_theorem :
    parseBlocks "Overview\n\nThis is a test.\n\n• first\n• second\n\n1. one\n2. two"
      = [Block.heading "Overview", Block.spacer,
         Block.heading "This is a test.", Block.spacer,
         Block.bulletList ["first", "second"], Block.spacer,
         Block.numberedList ["1. one", "2. two"], Block.spacer] := by decide

/-- C8 counterexample: for the bullet line with no space after the
marker, the emitted item is empty rather than the content with only the
marker stripped, because the code removes the first two characters of the
stripped line unconditionally. -/
theorem c8_counterexample :
    parseBlocks "•x" = [Block.bulletList [""], Block.spacer] ∧
    parseBlocks "•x" ≠ [Block.bulletList ["x"], Block.spacer] :=
  ⟨by decide, by decide⟩

lemma splitNl_no_nl : ∀ (l acc : List Char), '\n' ∉ l →
    splitNl l acc = [String.mk (acc.reverse ++ l)]
  | [], acc, _ => by simp [splitNl]
  | c :: cs, acc, h => by
    have hc : c ≠ '\n' := fun hh => h (hh ▸ List.mem_cons_self c cs)
    simp only [splitNl, if_neg hc]
    rw [splitNl_no_nl cs (c :: acc) (fun hh => h (List.mem_cons_of_mem c hh))]
    simp

lemma splitLines_single (s : String) (h : '\n' ∉ s.data) : splitLines s = [s] := by
  unfold splitLines
  rw [splitNl_no_nl s.data [] h]
  simp [strMkData]

lemma data_bullet_append (x : String) : ("• " ++ x).data = '•' :: ' ' :: x.data := by
  rw [String.data_append]
  rfl

lemma bstart_bullet_append (x : String) : bstart ("• " ++ x) = true := by
  unfold bstart
  rw [data_bullet_append]
  rfl

lemma fsAux_nil (fuel : Nat) (curr : List String) :
    fsAux fuel [] curr = flushPara curr := by
  cases fuel <;> rfl

lemma drop_two_bullet (p : String) :
    String.mk (("• " ++ p).data.drop 2) = p := by
  rw [data_bullet_append]
  simp [strMkData]

lemma takeBullets_eq : ∀ ls : List String,
    takeBullets ls
      = ((ls.takeWhile (fun l => bstart (pstrip l))).map
           (fun l => pstrip (String.mk ((pstrip l).data.drop 2))),
         ls.dropWhile (fun l => bstart (pstrip l)))
  | [] => by simp [takeBullets]
  | l :: rest => by
    simp only [takeBullets, List.takeWhile_cons, List.dropWhile_cons]
    by_cases hb : bstart (pstrip l) = true
    · rw [takeBullets_eq rest]
      simp [hb]
    · simp [hb]

lemma map_drop_two_bullet : ∀ ls : List String,
    (ls.map (fun p => "• " ++ p)).map (fun x => String.mk (x.data.drop 2)) = ls
  | [] => rfl
  | a :: as => by
    simp only [List.map_cons, drop_two_bullet, map_drop_two_bullet as]

lemma takeItems_run : ∀ (items : List String) (fs : List Flow),
    takeItems (items.map (fun p => Flow.para ("• " ++ p) Style.listItem)
        ++ Flow.spacer 1 6 :: fs)
      = (items.map (fun p => "• " ++ p), Flow.spacer 1 6 :: fs)
  | [], fs => rfl
  | i :: items, fs => by
    simp only [List.map_cons, List.cons_append, takeItems, List.append_eq]
    rw [takeItems_run items fs]

/-- C8 (amended): whenever the line scan reaches a bullet line, in any
input, at any position, with any pending paragraph text, the parser
consumes the maximal run of consecutive bullet lines and emits one item
per line, and each item equals the stripped bullet line with its first
two characters removed and then trimmed; under the block view such a run
becomes one BulletList holding exactly those items. When the marker is
followed by a space the item is the content with the marker and the space
stripped, but for a bullet line whose marker is not followed by a space
the first character of the content itself is also removed. -/
theorem c8_theorem (fuel : Nat) (l0 : String) (rest curr : List String)
    (hb : bstart (pstrip l0) = true) :
    fsAux (fuel + 1) (l0 :: rest) curr
      = flushPara curr
        ++ ((l0 :: rest).takeWhile (fun l => bstart (pstrip l))).map
             (fun l => Flow.para
               ("• " ++ pstrip (String.mk ((pstrip l).data.drop 2)))
               Style.listItem)
        ++ [Flow.spacer 1 6]
        ++ fsAux fuel ((l0 :: rest).dropWhile (fun l => bstart (pstrip l))) []
    ∧ ∀ (fuel2 : Nat) (items : List String) (fs : List Flow), items ≠ [] →
        toBlocksAux (fuel2 + 2)
          (items.map (fun p => Flow.para ("• " ++ p) Style.listItem)
            ++ Flow.spacer 1 6 :: fs)
          = Block.bulletList items :: Block.spacer :: toBlocksAux fuel2 fs := by
  constructor
  · have hline : pstrip l0 ≠ "" := by
      intro h
      rw [h] at hb
      simp [bstart] at hb
    have hhc : headingCond (pstrip l0) rest = false := by
      simp [headingCond, hb]
    simp only [fsAux]
    rw [if_neg hline, hhc]
    simp only [Bool.false_eq_true, if_false]
    rw [if_pos hb, takeBullets_eq]
    simp [List.map_map, List.append_assoc, Function.comp]
  · intro fuel2 items fs hne
    cases items with
    | nil => exact absurd rfl hne
    | cons i0 its =>
      show toBlocksAux (fuel2 + 1 + 1) _ = _
      simp only [List.map_cons, List.cons_append, toBlocksAux, List.append_eq]
      rw [takeItems_run its fs]
      rw [if_pos (bstart_bullet_append i0)]
      rw [drop_two_bullet, map_drop_two_bullet its]
      simp only [toBlocksAux]

theorem c8_witness :
    bstart (pstrip "• first") = true ∧
    (fsAux (3 + 1) ["• first", "•x", "tail"] ["pending"]
      = flushPara ["pending"]
        ++ ((["• first", "•x", "tail"] : List String).takeWhile
              (fun l => bstart (pstrip l))).map
             (fun l => Flow.para
               ("• " ++ pstrip (String.mk ((pstrip l).data.drop 2)))
               Style.listItem)
        ++ [Flow.spacer 1 6]
        ++ fsAux 3 ((["• first", "•x", "tail"] : List String).dropWhile
              (fun l => bstart (pstrip l))) []
    ∧ ∀ (fuel2 : Nat) (items : List String) (fs : List Flow), items ≠ [] →
        toBlocksAux (fuel2 + 2)
          (items.map (fun p => Flow.para ("• " ++ p) Style.listItem)
            ++ Flow.spacer 1 6 :: fs)
          = Block.bulletList items :: Block.spacer :: toBlocksAux fuel2 fs) :=
  ⟨by decide, c8_theorem 3 "• first" ["•x", "tail"] ["pending"] (by decide)⟩

example : fsAux (3 + 1) ["• first", "•x", "tail"] ["pending"]
    = [Flow.para "pending" Style.normalText,
       Flow.para "• first" Style.listItem, Flow.para "• " Style.listItem,
       Flow.spacer 1 6, Flow.para "tail" Style.normalText] := by decide

example : toBlocksAux (0 + 2)
    ((["first", ""] : List String).map
        (fun p => Flow.para ("• " ++ p) Style.listItem)
      ++ Flow.spacer 1 6 :: [])
    = [Block.bulletList ["first", ""], Block.spacer] := by decide

lemma takeBullets_snd_len : ∀ ls : List String,
    (takeBullets ls).2.length ≤ ls.length
  | [] => by simp [takeBullets]
  | l :: rest => by
    simp only [takeBullets]
    split
    · have ih := takeBullets_snd_len rest
      simp only [List.length_cons]
      omega
    · simp

lemma takeNumbered_snd_len : ∀ ls : List String,
    (takeNumbered ls).2.length ≤ ls.length
  | [] => by simp [takeNumbered]
  | l :: rest => by
    simp only [takeNumbered]
    split
    · have ih := takeNumbered_snd_len rest
      simp only [List.length_cons]
      omega
    · simp

lemma takeBullets_last : ∀ (ls : List String) (x : String),
    ls.getLast? = some x → bstart (pstrip x) = false →
    (takeBullets ls).2.getLast? = some x
  | [], x, h, _ => by simp at h
  | l :: rest, x, h, hx => by
    simp only [takeBullets]
    split
    · next hl =>
      cases rest with
      | nil =>
        have hxl : l = x := by simpa using h
        subst hxl
        rw [hl] at hx
        exact absurd hx (by decide)
      | cons r rs =>
        rw [List.getLast?_cons_cons] at h
        exact takeBullets_last (r :: rs) x h hx
    · exact h

lemma takeNumbered_last : ∀ (ls : List String) (x : String),
    ls.getLast? = some x → isNumbered (pstrip x) = false →
    (takeNumbered ls).2.getLast? = some x
  | [], x, h, _ => by simp at h
  | l :: rest, x, h, hx => by
    simp only [takeNumbered]
    split
    · next hl =>
      cases rest with
      | nil =>
        have hxl : l = x := by simpa using h
        subst hxl
        rw [hl] at hx
        exact absurd hx (by decide)
      | cons r rs =>
        rw [List.getLast?_cons_cons] at h
        exact takeNumbered_last (r :: rs) x h hx
    · exact h

lemma fsAux_last : ∀ (fuel : Nat) (ls curr : List String) (l : String),
    ls.length < fuel → ls.getLast? = some l → pstrip l ≠ "" →
    bstart (pstrip l) = false → isNumbered (pstrip l) = false →
    ∃ pre curr2, fsAux fuel ls curr
      = pre ++ [Flow.para (sjoin (curr2 ++ [pstrip l])) Style.normalText]
  | 0, ls, curr, l, hlen, _, _, _, _ => absurd hlen (by omega)
  | fuel+1, [], curr, l, _, hlast, _, _, _ => by simp at hlast
  | fuel+1, l0 :: rest, curr, l, hlen, hlast, h1, h2, h3 => by
    by_cases hblank : pstrip l0 = ""
    · cases rest with
      | nil =>
        have hl0 : l0 = l := by simpa using hlast
        subst hl0
        exact absurd hblank h1
      | cons r rs =>
        rw [List.getLast?_cons_cons] at hlast
        obtain ⟨pre, curr2, ih⟩ := fsAux_last fuel (r :: rs) [] l
          (by simp only [List.length_cons] at hlen ⊢; omega) hlast h1 h2 h3
        refine ⟨flushPara curr ++ pre, curr2, ?_⟩
        simp only [fsAux, if_pos hblank]
        rw [ih, List.append_assoc]
    · by_cases hhead : headingCond (pstrip l0) rest = true
      · cases rest with
        | nil => simp [headingCond] at hhead
        | cons nx rs2 =>
          have hnx : pstrip nx = "" := by
            have h' := hhead
            simp only [headingCond, Bool.and_eq_true, beq_iff_eq] at h'
            exact h'.1.1
          cases rs2 with
          | nil =>
            have hnxl : nx = l := by
              rw [List.getLast?_cons_cons] at hlast
              simpa using hlast
            subst hnxl
            exact absurd hnx h1
          | cons r2 rr =>
            rw [List.getLast?_cons_cons, List.getLast?_cons_cons] at hlast
            obtain ⟨pre, curr2, ih⟩ := fsAux_last fuel (r2 :: rr) [] l
              (by simp only [List.length_cons] at hlen ⊢; omega) hlast h1 h2 h3
            refine ⟨flushPara curr
              ++ [Flow.para (pstrip l0) Style.subsectionTitle, Flow.spacer 1 10]
              ++ pre, curr2, ?_⟩
            simp only [fsAux, if_neg hblank, if_pos hhead, List.tail_cons]
            rw [ih]
            simp [List.append_assoc]
      · by_cases hbul : bstart (pstrip l0) = true
        · cases rest with
          | nil =>
            have hl0 : l0 = l := by simpa using hlast
            subst hl0
            rw [hbul] at h2
            exact absurd h2 (by decide)
          | cons r rs =>
            rw [List.getLast?_cons_cons] at hlast
            have htb := takeBullets_last (r :: rs) l hlast h2
            have htlen := takeBullets_snd_len (r :: rs)
            obtain ⟨pre, curr2, ih⟩ :=
              fsAux_last fuel (takeBullets (r :: rs)).2 [] l
                (by simp only [List.length_cons] at hlen htlen ⊢; omega) htb h1 h2 h3
            refine ⟨flushPara curr
              ++ (takeBullets (l0 :: r :: rs)).1.map
                   (fun p => Flow.para ("• " ++ p) Style.listItem)
              ++ [Flow.spacer 1 6] ++ pre, curr2, ?_⟩
            simp only [fsAux, if_neg hblank, if_neg hhead, if_pos hbul]
            have hsnd : (takeBullets (l0 :: r :: rs)).2
                = (takeBullets (r :: rs)).2 := by
              simp [takeBullets, hbul]
            rw [hsnd, ih]
            simp [List.append_assoc]
        · by_cases hnum : isNumbered (pstrip l0) = true
          · cases rest with
            | nil =>
              have hl0 : l0 = l := by simpa using hlast
              subst hl0
              rw [hnum] at h3
              exact absurd h3 (by decide)
            | cons r rs =>
              rw [List.getLast?_cons_cons] at hlast
              have htn := takeNumbered_last (r :: rs) l hlast h3
              have htlen := takeNumbered_snd_len (r :: rs)
              obtain ⟨pre, curr2, ih⟩ :=
                fsAux_last fuel (takeNumbered (r :: rs)).2 [] l
                  (by simp only [List.length_cons] at hlen htlen ⊢; omega) htn h1 h2 h3
              refine ⟨flushPara curr
                ++ (takeNumbered (l0 :: r :: rs)).1.map
                     (fun p => Flow.para p Style.listItem)
                ++ [Flow.spacer 1 6] ++ pre, curr2, ?_⟩
              simp only [fsAux, if_neg hblank, if_neg hhead, if_neg hbul,
                if_pos hnum]
              have hsnd : (takeNumbered (l0 :: r :: rs)).2
                  = (takeNumbered (r :: rs)).2 := by
                simp [takeNumbered, hnum]
              rw [hsnd, ih]
              simp [List.append_assoc]
          · cases rest with
            | nil =>
              have hl0 : l0 = l := by simpa using hlast
              subst hl0
              refine ⟨[], curr, ?_⟩
              simp only [fsAux, if_neg hblank, if_neg hhead, if_neg hbul,
                if_neg hnum]
              rw [fsAux_nil]
              unfold flushPara
              rw [if_neg (by simp)]
              simp
            | cons r rs =>
              rw [List.getLast?_cons_cons] at hlast
              obtain ⟨pre, curr2, ih⟩ :=
                fsAux_last fuel (r :: rs) (curr ++ [pstrip l0]) l
                  (by simp only [List.length_cons] at hlen ⊢; omega) hlast h1 h2 h3
              refine ⟨pre, curr2, ?_⟩
              simp only [fsAux, if_neg hblank, if_neg hhead, if_neg hbul,
                if_neg hnum]
              exact ih

/-- C10: a non-blank line that is neither a bullet nor a numbered item
and is the final line of the input is never rendered as a heading: it
always ends up inside the final normal-text paragraph flush, whose text
is the pending paragraph words joined with the stripped final line. -/
theorem c10_theorem (t l : String) (hl : (splitLines t).getLast? = some l)
    (h1 : pstrip l ≠ "") (h2 : bstart (pstrip l) = false)
    (h3 : isNumbered (pstrip l) = false) :
    ∃ pre curr, format_summary t
      = pre ++ [Flow.para (sjoin (curr ++ [pstrip l])) Style.normalText] := by
  unfold format_summary
  exact fsAux_last ((splitLines t).length + 1) (splitLines t) [] l
    (by omega) hl h1 h2 h3

theorem c10_witness :
    (splitLines "Hello").getLast? = some "Hello" ∧
    pstrip "Hello" ≠ "" ∧ bstart (pstrip "Hello") = false ∧
    isNumbered (pstrip "Hello") = false ∧
    ∃ pre curr, format_summary "Hello"
      = pre ++ [Flow.para (sjoin (curr ++ [pstrip "Hello"])) Style.normalText] :=
  ⟨by decide, by decide, by decide, by decide,
   c10_theorem "Hello" "Hello" (by decide) (by decide) (by decide) (by decide)⟩

end SDPIP
